import Mathlib

/-!
Verification of the QuantumChat repository: a shallow embedding of the
server-side `QuantumCrypto` class (`src/crypto/quantum-crypto.js`), the
client-side `ClientQuantumCrypto` class (`src/frontend/app.js`) and the
message handlers of `src/backend/server.js`, together with theorems about
the key-exchange, cipher and relay fan-out behaviour.

Modelling conventions:
* JavaScript byte buffers (`Buffer`, `Uint8Array`) are `List Nat` with the
  invariant `b < 256` stated where a property needs it.
* JavaScript strings are `List Char`; plaintext strings are modelled by
  their UTF-8 byte sequences (`Buffer.from(s, 'utf8')` / `toString('utf8')`
  are mutually inverse on well-formed Unicode strings, so the byte level is
  the faithful one for the cipher).
* The external Node/browser hash primitives (`crypto.createHash('sha256')`,
  `crypto.createHmac('sha256', key)`, `crypto.subtle.digest`) are not part
  of this repository; they are passed in as explicit function parameters
  `hash`/`hmac` so every theorem holds for the real primitives.
* Throwing code is modelled with `Except String`.
* Wall-clock fields (`timestamp: Date.now()`) are elided: no handler or
  cipher routine reads them back.
-/

namespace QuantumChat

/-! ### Hex encoding (Buffer.toString('hex') / Buffer.from(str, 'hex')) -/

/-- Lower-case hex digit for a nibble, as produced by `toString('hex')`. -/
def hexDigitChar (n : Nat) : Char :=
  if n < 10 then Char.ofNat (48 + n) else Char.ofNat (87 + n)

/-- One byte as two lower-case hex characters. -/
def byteToHex (b : Nat) : List Char :=
  [hexDigitChar (b / 16), hexDigitChar (b % 16)]

/-- `Buffer.toString('hex')`: a byte list as a lower-case hex string. -/
def bytesToHex (bs : List Nat) : List Char :=
  (bs.map byteToHex).flatten

/-- Value of one hex character (`0-9`, `a-f`, `A-F`), `none` otherwise. -/
def hexDigitVal (c : Char) : Option Nat :=
  if 48 ≤ c.toNat ∧ c.toNat ≤ 57 then some (c.toNat - 48)
  else if 97 ≤ c.toNat ∧ c.toNat ≤ 102 then some (c.toNat - 87)
  else if 65 ≤ c.toNat ∧ c.toNat ≤ 70 then some (c.toNat - 55)
  else none

/-- `Buffer.from(str, 'hex')`: parse hex pairs, stopping at the first
invalid pair or dangling character (Node's lenient semantics). -/
def hexPairsToBytes : List Char → List Nat
  | c1 :: c2 :: rest =>
    match hexDigitVal c1, hexDigitVal c2 with
    | some h, some l => (16 * h + l) :: hexPairsToBytes rest
    | _, _ => []
  | _ => []

/-- The regex `^[0-9a-fA-F]+$` of `QuantumCrypto.decrypt`. -/
def isHexString (s : List Char) : Bool :=
  !s.isEmpty && s.all (fun c => (hexDigitVal c).isSome)

/-- A character of the lower-case hex alphabet `0-9a-f`. -/
def isLowerHexChar (c : Char) : Bool :=
  (48 ≤ c.toNat && c.toNat ≤ 57) || (97 ≤ c.toNat && c.toNat ≤ 102)

/-! ### UTF-8 encoding of a string (TextEncoder / Buffer.from(s, 'utf8')) -/

/-- UTF-8 bytes of one Unicode scalar value. -/
def utf8EncodeChar (c : Char) : List Nat :=
  let p := c.toNat
  if p < 128 then [p]
  else if p < 2048 then [192 + p / 64, 128 + p % 64]
  else if p < 65536 then [224 + p / 4096, 128 + (p / 64) % 64, 128 + p % 64]
  else [240 + p / 262144, 128 + (p / 4096) % 64, 128 + (p / 64) % 64, 128 + p % 64]

/-- `Buffer.from(s, 'utf8')` on a string. -/
def utf8Encode (s : List Char) : List Nat :=
  (s.map utf8EncodeChar).flatten

/-! ### The XOR stream cipher core -/

/-- The loop `out[i] = in[i] ^ secret[i % secret.length]` of
`QuantumCrypto.encrypt`/`decrypt`, with the running index made explicit. -/
def xorWithSecret (secret : List Nat) : Nat → List Nat → List Nat
  | _, [] => []
  | i, b :: bs => (b ^^^ secret.getD (i % secret.length) 0) :: xorWithSecret secret (i + 1) bs

/-! ### Key material and crypto state (`QuantumCrypto` instance fields) -/

/-- `this.keyPair` of `QuantumCrypto` (the metadata string fields carry no
behaviour and are elided). -/
structure KeyPair where
  privateKey : List Nat
  publicKey : List Nat
  deriving DecidableEq, Repr

/-- `this.signatureKey` of `QuantumCrypto`. -/
structure SigKeyPair where
  privateKey : List Nat
  publicKey : List Nat
  deriving DecidableEq, Repr

/-- The mutable fields of a `QuantumCrypto` instance. `sharedSecrets`
models the `Map` (insertion-ordered association list; the JS field starts
`undefined` and is created empty on first use, which is indistinguishable
from starting empty). -/
structure CryptoState where
  keyPair : Option KeyPair
  sharedSecret : Option (List Nat)
  sharedSecrets : List (String × List Nat)
  signatureKey : Option SigKeyPair
  deriving DecidableEq, Repr

/-- Association-list lookup (JS `Map.get` / `Map.has`). -/
def lookupA (k : String) : List (String × β) → Option β
  | [] => none
  | (k', v) :: rest => if k' = k then some v else lookupA k rest

/-- JS `Map.set`: replace in place if the key exists, else append. -/
def mapSet (k : String) (v : β) (m : List (String × β)) : List (String × β) :=
  if (lookupA k m).isSome then m.map (fun p => if p.1 = k then (k, v) else p)
  else m ++ [(k, v)]

/-- `QuantumCrypto.hasSharedSecretWith`. -/
def CryptoState.hasSharedSecretWith (s : CryptoState) (peerId : String) : Bool :=
  (lookupA peerId s.sharedSecrets).isSome

/-! ### Shared-secret derivation (`QuantumCrypto.performKeyExchange`) -/

/-- `Buffer.compare` / `a.compare(b)`: lexicographic byte order, a strict
prefix ordering before the longer buffer. -/
def bufCompare : List Nat → List Nat → Ordering
  | [], [] => .eq
  | [], _ :: _ => .lt
  | _ :: _, [] => .gt
  | a :: as, b :: bs =>
    if a < b then .lt else if b < a then .gt else bufCompare as bs

/-- `[x, y].sort((a, b) => a.compare(b))`: a two-element JS sort swaps
exactly when the comparator is positive. -/
def sortPair (x y : List Nat) : List (List Nat) :=
  if bufCompare x y = .gt then [y, x] else [x, y]

/-- The shared-secret derivation of `QuantumCrypto.performKeyExchange`:
sort the two public keys canonically, concatenate, hash with SHA-256
(`hash` is the external SHA-256 primitive). -/
def deriveSharedSecret (hash : List Nat → List Nat) (myPub peerPub : List Nat) : List Nat :=
  hash (sortPair myPub peerPub).flatten

/-- `QuantumCrypto.performKeyExchange(peerPublicKey, peerId = null)`.
Returns the updated instance state or the thrown error. -/
def CryptoState.performKeyExchange (hash : List Nat → List Nat) (s : CryptoState)
    (peerPublicKey : List Char) (peerId : Option String) : Except String CryptoState :=
  match s.keyPair with
  | none => .error "Failed to establish shared secret"
  | some kp =>
    let peerPubKeyBuffer := hexPairsToBytes peerPublicKey
    let sharedSecret := deriveSharedSecret hash kp.publicKey peerPubKeyBuffer
    let withMap :=
      match peerId with
      | some pid => { s with sharedSecrets := mapSet pid sharedSecret s.sharedSecrets }
      | none => s
    .ok { withMap with sharedSecret := some sharedSecret }

/-! ### Client-side derivation (`ClientQuantumCrypto.performKeyExchange`) -/

/-- JS default-comparator string less-than (lexicographic on code units;
the keys compared here are ASCII hex strings, where code-unit order and
code-point order coincide). -/
def strLtJs : List Char → List Char → Bool
  | [], [] => false
  | [], _ :: _ => true
  | _ :: _, [] => false
  | a :: as, b :: bs =>
    if a.toNat < b.toNat then true
    else if b.toNat < a.toNat then false
    else strLtJs as bs

/-- `[x, y].sort()` on two strings: ascending by the default comparator. -/
def sortPairStr (x y : List Char) : List (List Char) :=
  if strLtJs y x then [y, x] else [x, y]

/-- The client derivation: sort the two public-key hex strings, join, and
hash the UTF-8 encoding (`hash` absorbs `TextEncoder.encode` composed with
`crypto.subtle.digest('SHA-256', ·)`). -/
def clientDeriveSharedSecret (hash : List Char → List Nat) (myPub peerPub : List Char) : List Nat :=
  hash (sortPairStr myPub peerPub).flatten

/-! ### Encryption / decryption (`QuantumCrypto.encrypt` / `decrypt`) -/

/-- The encrypted-data object built by `QuantumCrypto.encrypt` (and by the
client's `ClientQuantumCrypto.encrypt`): hex ciphertext plus routing and
format tags. -/
structure EncryptedData where
  encrypted : List Char
  algorithm : String
  forPeer : Option String
  format : String
  deriving DecidableEq, Repr

/-- Secret resolution of `QuantumCrypto.encrypt`: the per-peer secret when
`peerId` is supplied and present in the map, else the backward-compatible
`this.sharedSecret`. -/
def resolveEncryptSecret (s : CryptoState) (peerId : Option String) : Option (List Nat) :=
  match peerId.bind (fun pid => lookupA pid s.sharedSecrets) with
  | some sec => some sec
  | none => s.sharedSecret

/-- `QuantumCrypto.encrypt(message, peerId = null)` on the UTF-8 bytes of
the message. -/
def CryptoState.encrypt (s : CryptoState) (messageBytes : List Nat)
    (peerId : Option String) : Except String EncryptedData :=
  match resolveEncryptSecret s peerId with
  | none => .error "Failed to encrypt message"
  | some sec =>
    .ok { encrypted := bytesToHex (xorWithSecret sec 0 messageBytes)
          algorithm := "XOR-Demo"
          forPeer := peerId
          format := "hex" }

/-- Secret resolution of `QuantumCrypto.decrypt`: explicit `peerId`
argument first, then the envelope's `forPeer`, then `this.sharedSecret`. -/
def resolveDecryptSecret (s : CryptoState) (ed : EncryptedData)
    (peerId : Option String) : Option (List Nat) :=
  match peerId.bind (fun pid => lookupA pid s.sharedSecrets) with
  | some sec => some sec
  | none =>
    match ed.forPeer.bind (fun pid => lookupA pid s.sharedSecrets) with
    | some sec => some sec
    | none => s.sharedSecret

/-- `QuantumCrypto.decrypt(encryptedData, peerId = null)`, for the
string-typed `encrypted` payload of the wire envelope, returning the
decrypted bytes (`toString('utf8')` of the source is the inverse of the
UTF-8 view taken of plaintexts). Mirrors the source's order of checks:
secret resolution, the falsy-field check `if (!encrypted)`, the algorithm
dispatch, then hex parsing when `format === 'hex'` or the payload matches
the hex regex, else the UTF-8 fallback for direct strings. -/
def CryptoState.decrypt (s : CryptoState) (ed : EncryptedData)
    (peerId : Option String) : Except String (List Nat) :=
  match resolveDecryptSecret s ed peerId with
  | none => .error "Failed to decrypt message: No shared secret available. Perform key exchange first."
  | some sec =>
    if ed.encrypted.isEmpty then
      .error "Failed to decrypt message: Missing required encryption fields"
    else if ed.algorithm = "XOR-Demo" then
      let encryptedBytes :=
        if ed.format = "hex" || isHexString ed.encrypted then hexPairsToBytes ed.encrypted
        else utf8Encode ed.encrypted
      .ok (xorWithSecret sec 0 encryptedBytes)
    else .error "Failed to decrypt message: Unsupported encryption algorithm"


/-! ### Supporting lemmas: hex round trip and XOR involution -/

theorem hexDigitVal_hexDigitChar {n : Nat} (h : n < 16) :
    hexDigitVal (hexDigitChar n) = some n := by
  interval_cases n <;> decide

theorem isLowerHexChar_hexDigitChar {n : Nat} (h : n < 16) :
    isLowerHexChar (hexDigitChar n) = true := by
  interval_cases n <;> decide

theorem hexPairsToBytes_bytesToHex :
    ∀ bs : List Nat, (∀ b ∈ bs, b < 256) → hexPairsToBytes (bytesToHex bs) = bs := by
  intro bs
  induction bs with
  | nil => intro _; rfl
  | cons b rest ih =>
    intro h
    have hb : b < 256 := h b (List.mem_cons_self b rest)
    have hdiv : b / 16 < 16 := by omega
    have hmod : b % 16 < 16 := by omega
    have hrest : hexPairsToBytes (bytesToHex rest) = rest :=
      ih (fun x hx => h x (List.mem_cons_of_mem _ hx))
    simp only [bytesToHex, List.map_cons, List.flatten_cons, byteToHex, List.cons_append,
      List.nil_append, hexPairsToBytes, hexDigitVal_hexDigitChar hdiv,
      hexDigitVal_hexDigitChar hmod]
    have h16 : 16 * (b / 16) + b % 16 = b := Nat.div_add_mod b 16
    simpa [h16] using hrest

theorem natXorCancel (b k : Nat) : (b ^^^ k) ^^^ k = b := by
  rw [Nat.xor_assoc, Nat.xor_self, Nat.xor_zero]

theorem xorWithSecret_involutive (sec : List Nat) :
    ∀ (i : Nat) (bs : List Nat), xorWithSecret sec i (xorWithSecret sec i bs) = bs := by
  intro i bs
  induction bs generalizing i with
  | nil => rfl
  | cons b rest ih => simp [xorWithSecret, natXorCancel, ih]

theorem xorWithSecret_length (sec : List Nat) :
    ∀ (i : Nat) (bs : List Nat), (xorWithSecret sec i bs).length = bs.length := by
  intro i bs
  induction bs generalizing i with
  | nil => rfl
  | cons b rest ih => simp [xorWithSecret, ih]

theorem getD_mem_of_lt : ∀ (l : List Nat) (i : Nat), i < l.length → l.getD i 0 ∈ l := by
  intro l
  induction l with
  | nil => intro i h; simp at h
  | cons a rest ih =>
    intro i h
    cases i with
    | zero => simp
    | succ n =>
      simp only [List.getD_cons_succ]
      exact List.mem_cons_of_mem _ (ih n (by simpa using h))

theorem xorWithSecret_bytes_lt (sec : List Nat) (hsec : ∀ k ∈ sec, k < 256) :
    ∀ (i : Nat) (bs : List Nat), (∀ b ∈ bs, b < 256) →
      ∀ x ∈ xorWithSecret sec i bs, x < 256 := by
  intro i bs
  induction bs generalizing i with
  | nil => intro _ x hx; simp [xorWithSecret] at hx
  | cons b rest ih =>
    intro h x hx
    have hb : b < 256 := h b (List.mem_cons_self b rest)
    have hk : sec.getD (i % sec.length) 0 < 256 := by
      cases sec with
      | nil => simp [List.getD]
      | cons s ss =>
        exact hsec _ (getD_mem_of_lt _ _ (Nat.mod_lt _ (by simp)))
    simp only [xorWithSecret, List.mem_cons] at hx
    rcases hx with hx | hx
    · subst hx
      have : b ^^^ sec.getD (i % sec.length) 0 < 2 ^ 8 :=
        Nat.xor_lt_two_pow (n := 8) hb hk
      simpa using this
    · exact ih (i + 1) (fun y hy => h y (List.mem_cons_of_mem _ hy)) x hx

theorem bytesToHex_all_lower :
    ∀ bs : List Nat, (∀ b ∈ bs, b < 256) → (bytesToHex bs).all isLowerHexChar = true := by
  intro bs
  induction bs with
  | nil => intro _; rfl
  | cons b rest ih =>
    intro h
    have hb : b < 256 := h b (List.mem_cons_self b rest)
    simp only [bytesToHex, List.map_cons, List.flatten_cons, byteToHex, List.all_append,
      List.all_cons, List.all_nil, Bool.and_true, Bool.and_eq_true]
    refine ⟨⟨isLowerHexChar_hexDigitChar (by omega), isLowerHexChar_hexDigitChar (by omega)⟩, ?_⟩
    exact ih (fun x hx => h x (List.mem_cons_of_mem _ hx))

/-! ### Claim C1: encrypt/decrypt round trip -/

/-- C1 (counterexample): the round trip `decrypt(s, encrypt(s, m)) == m`
fails for the empty plaintext: the ciphertext hex string is empty, and
`decrypt`'s falsy-field check `if (!encrypted)` rejects it as
"Missing required encryption fields". Concrete input: secret `[1]`,
plaintext `""` (byte list `[]`). -/
theorem roundTrip_fails_on_empty_plaintext :
    ∃ ed, CryptoState.encrypt ⟨none, some [1], [], none⟩ [] none = .ok ed ∧
      CryptoState.decrypt ⟨none, some [1], [], none⟩ ed none =
        .error "Failed to decrypt message: Missing required encryption fields" := by
  exact ⟨_, rfl, rfl⟩

/-- C1 (amended): for every crypto state whose active shared secret is a
nonempty byte list `sec` and every *nonempty* plaintext byte sequence `m`,
`encrypt` succeeds, emits a lowercase hex ciphertext with `algorithm`
`XOR-Demo` and `format` `hex`, and `decrypt` of the emitted envelope under
the same state returns `m` (the cipher is `ct[i] = m[i] ^^^ sec[i % L]`,
self-inverse). -/
theorem encrypt_then_decrypt_roundtrip (st : CryptoState) (sec m : List Nat)
    (hsecret : st.sharedSecret = some sec) (_hsecne : sec ≠ [])
    (hsec : ∀ k ∈ sec, k < 256) (hmne : m ≠ []) (hm : ∀ b ∈ m, b < 256) :
    ∃ ed, st.encrypt m none = .ok ed ∧ ed.format = "hex" ∧ ed.algorithm = "XOR-Demo" ∧
      ed.encrypted.all isLowerHexChar = true ∧ st.decrypt ed none = .ok m := by
  have hctlt : ∀ x ∈ xorWithSecret sec 0 m, x < 256 :=
    xorWithSecret_bytes_lt sec hsec 0 m hm
  have henc : st.encrypt m none =
      .ok ⟨bytesToHex (xorWithSecret sec 0 m), "XOR-Demo", none, "hex"⟩ := by
    simp [CryptoState.encrypt, resolveEncryptSecret, hsecret, Option.bind]
  refine ⟨_, henc, rfl, rfl, bytesToHex_all_lower _ hctlt, ?_⟩
  have hne : xorWithSecret sec 0 m ≠ [] := by
    cases m with
    | nil => exact absurd rfl hmne
    | cons b bs => simp [xorWithSecret]
  have hhexne : (bytesToHex (xorWithSecret sec 0 m)).isEmpty = false := by
    cases hx : xorWithSecret sec 0 m with
    | nil => exact absurd hx hne
    | cons x xs => simp [bytesToHex, byteToHex]
  simp [CryptoState.decrypt, resolveDecryptSecret, hsecret, hhexne,
    hexPairsToBytes_bytesToHex _ hctlt, xorWithSecret_involutive]

/-- C1 witness: the amended round trip at secret `[7, 3]` and plaintext
bytes `[104, 105]`. -/
theorem encrypt_then_decrypt_roundtrip_witness :
    ∃ ed, CryptoState.encrypt ⟨none, some [7, 3], [], none⟩ [104, 105] none = .ok ed ∧
      ed.format = "hex" ∧ ed.algorithm = "XOR-Demo" ∧
      ed.encrypted.all isLowerHexChar = true ∧
      CryptoState.decrypt ⟨none, some [7, 3], [], none⟩ ed none = .ok [104, 105] :=
  encrypt_then_decrypt_roundtrip ⟨none, some [7, 3], [], none⟩ [7, 3] [104, 105] rfl
    (by decide) (by decide) (by decide) (by decide)

/-! ### Claim C2: commutative shared-secret derivation -/

theorem bufCompare_swap : ∀ a b : List Nat, bufCompare b a = (bufCompare a b).swap := by
  intro a
  induction a with
  | nil => intro b; cases b <;> rfl
  | cons x xs ih =>
    intro b
    cases b with
    | nil => rfl
    | cons y ys =>
      simp only [bufCompare]
      rcases Nat.lt_trichotomy x y with hxy | hxy | hxy
      · have h1 : ¬ y < x := by omega
        simp [hxy, h1, Ordering.swap]
      · subst hxy
        simp only [Nat.lt_irrefl, if_false]
        exact ih ys
      · have h1 : ¬ x < y := by omega
        simp [hxy, h1, Ordering.swap]

theorem bufCompare_eq_imp : ∀ a b : List Nat, bufCompare a b = .eq → a = b := by
  intro a
  induction a with
  | nil =>
    intro b h
    cases b with
    | nil => rfl
    | cons y ys => simp [bufCompare] at h
  | cons x xs ih =>
    intro b h
    cases b with
    | nil => simp [bufCompare] at h
    | cons y ys =>
      simp only [bufCompare] at h
      rcases Nat.lt_trichotomy x y with hxy | hxy | hxy
      · simp [hxy] at h
      · subst hxy
        simp only [Nat.lt_irrefl, if_false] at h
        rw [ih ys h]
      · have h1 : ¬ x < y := by omega
        simp [h1, hxy] at h

theorem sortPair_comm (a b : List Nat) : sortPair a b = sortPair b a := by
  unfold sortPair
  rw [bufCompare_swap a b]
  cases h : bufCompare a b with
  | lt => simp [Ordering.swap]
  | eq => rw [bufCompare_eq_imp a b h]; simp
  | gt => simp [Ordering.swap]

theorem strLtJs_asymm : ∀ a b : List Char, strLtJs a b = true → strLtJs b a = false := by
  intro a
  induction a with
  | nil =>
    intro b h
    cases b with
    | nil => simp [strLtJs] at h
    | cons y ys => rfl
  | cons x xs ih =>
    intro b h
    cases b with
    | nil => simp [strLtJs] at h
    | cons y ys =>
      simp only [strLtJs] at h ⊢
      rcases Nat.lt_trichotomy x.toNat y.toNat with hxy | hxy | hxy
      · have h1 : ¬ y.toNat < x.toNat := by omega
        simp [hxy, h1]
      · simp only [hxy, Nat.lt_irrefl, if_false] at h ⊢
        exact ih ys h
      · have h1 : ¬ x.toNat < y.toNat := by omega
        simp [h1, hxy] at h

theorem strLtJs_total_eq : ∀ a b : List Char,
    strLtJs a b = false → strLtJs b a = false → a = b := by
  intro a
  induction a with
  | nil =>
    intro b h1 _
    cases b with
    | nil => rfl
    | cons y ys => simp [strLtJs] at h1
  | cons x xs ih =>
    intro b h1 h2
    cases b with
    | nil => simp [strLtJs] at h2
    | cons y ys =>
      simp only [strLtJs] at h1 h2
      rcases Nat.lt_trichotomy x.toNat y.toNat with hxy | hxy | hxy
      · simp [hxy] at h1
      · have hchar : x = y := by
          have hx := Char.ofNat_toNat x
          rw [hxy, Char.ofNat_toNat y] at hx
          exact hx.symm
        simp only [hxy, Nat.lt_irrefl, if_false] at h1 h2
        rw [hchar, ih ys h1 h2]
      · have h1x : ¬ x.toNat < y.toNat := by omega
        simp [hxy, h1x] at h2

theorem sortPairStr_comm (a b : List Char) : sortPairStr a b = sortPairStr b a := by
  unfold sortPairStr
  cases h1 : strLtJs b a with
  | true =>
    rw [strLtJs_asymm b a h1]
    simp
  | false =>
    cases h2 : strLtJs a b with
    | true => simp
    | false =>
      rw [strLtJs_total_eq a b h2 h1]

/-- C2: shared-secret derivation is commutative. Server side
(`QuantumCrypto.performKeyExchange`): the two public-key buffers are
sorted by `Buffer.compare` (lexicographic byte order, never arrival
order) before being concatenated and hashed with SHA-256, so the derived
secret is independent of which side is "mine" and which is the peer.
Client side (`ClientQuantumCrypto.performKeyExchange`): the two
public-key hex strings are sorted by the default JS comparator and
joined before hashing, likewise order-independent. `hash`/`hashStr`
stand for the external SHA-256 primitives. -/
theorem deriveSharedSecret_comm :
    (∀ (hash : List Nat → List Nat) (pkA pkB : List Nat),
      deriveSharedSecret hash pkA pkB = deriveSharedSecret hash pkB pkA) ∧
    (∀ (hashStr : List Char → List Nat) (pkA pkB : List Char),
      clientDeriveSharedSecret hashStr pkA pkB = clientDeriveSharedSecret hashStr pkB pkA) := by
  constructor
  · intro hash pkA pkB
    unfold deriveSharedSecret
    rw [sortPair_comm]
  · intro hashStr pkA pkB
    unfold clientDeriveSharedSecret
    rw [sortPairStr_comm]

/-! ### Server sessions and message handlers (`src/backend/server.js`) -/

/-- One entry of the server's `clients` map. The WebSocket handle is
reduced to its observable `ws.readyState === WebSocket.OPEN` bit; sends
are collected as outputs rather than performed. `sentPublicKeyTo` is the
field of the same name created lazily by `handlePublicKeyExchange`
(starting absent is indistinguishable from starting empty). -/
structure Session where
  wsOpen : Bool
  crypto : CryptoState
  publicKey : Option (List Char)
  ready : Bool
  sentPublicKeyTo : List String
  deriving DecidableEq, Repr

/-- The server's `clients` map, in insertion order. -/
abbrev Registry := List (String × Session)

/-- Replace the session stored under `k` (JS mutation of the object held
in the map). -/
def updateA (k : String) (v : Session) (cls : Registry) : Registry :=
  cls.map (fun p => if p.1 = k then (k, v) else p)

/-- Messages the handlers send to clients. The relayed payload type `α`
is opaque to the server (it forwards `data`/`encryptedData` untouched).
Purely informational string fields and timestamps are elided. -/
inductive ServerMsg (α : Type) where
  | messageReceived (sender : String) (data : α)
  | messageSent
  | errorMsg (text : String)
  | keyExchangeComplete (peerId : Option String)
  | peerReady (peerId : String)
  | peerPublicKey (clientId : String) (publicKey : Option (List Char))
  | keysGenerated (publicKey : List Char)
  deriving DecidableEq, Repr

/-- The body of the `forEach` in `handleGroupMessage`: forward one
`{forPeer, data}` pair to the session registered under `forPeer` when its
connection is open, else nothing. -/
def deliverGroupItem (cls : Registry) (sender : String) (p : String × α) :
    Option (String × ServerMsg α) :=
  match lookupA p.1 cls with
  | some recipient =>
    if recipient.wsOpen then some (p.1, .messageReceived sender p.2) else none
  | none => none

/-- `handleGroupMessage`: forward each addressed envelope to its named
recipient only, then send one `message_sent` acknowledgment to the
sender. (The `if (!client) return` guard is the `none` branch.) -/
def handleGroupMessage (cls : Registry) (clientId : String)
    (encryptedMessages : List (String × α)) : List (String × ServerMsg α) :=
  match lookupA clientId cls with
  | none => []
  | some _ =>
    encryptedMessages.filterMap (deliverGroupItem cls clientId) ++
      [(clientId, .messageSent)]

/-- `broadcastToReady`: every ready session with an open connection,
except the excluded sender, in registry order. -/
def broadcastToReady (cls : Registry) (msg : ServerMsg α) (excludeId : String) :
    List (String × ServerMsg α) :=
  cls.filterMap (fun p =>
    if p.1 ≠ excludeId ∧ p.2.ready = true ∧ p.2.wsOpen = true then some (p.1, msg) else none)

/-- `handleEncryptedMessage` (legacy broadcast): a sender that is not
ready gets a state-error report and nothing is relayed; a ready sender's
ciphertext is relayed to every ready open session except the sender,
followed by one acknowledgment. (The handler is only dispatched for
registered senders — `handleMessage` returns early otherwise — so the
`none` branch is inert.) -/
def handleEncryptedMessage (cls : Registry) (clientId : String) (data : α) :
    List (String × ServerMsg α) :=
  match lookupA clientId cls with
  | none => []
  | some client =>
    if client.ready = false then
      [(clientId, .errorMsg "Client not ready for secure communication")]
    else
      broadcastToReady cls (.messageReceived clientId data) clientId ++
        [(clientId, .messageSent)]

/-- A `public_key` message body. -/
structure PublicKeyMsg where
  peerPublicKey : List Char
  peerId : Option String
  deriving DecidableEq, Repr

/-- The `if (message.peerId)` tail of `handlePublicKeyExchange`: when the
named peer is registered with an open connection, send it `peer_ready`,
and — unless it already has a shared secret with the sender or the
sender's key was already sent to it — record the send in
`sentPublicKeyTo` and emit the sender's public-key announcement. -/
def notifyPeerAfterExchange (cls1 : Registry) (clientId : String)
    (clientPublicKey : Option (List Char)) :
    Option String → Registry × List (String × ServerMsg α)
  | none => (cls1, [])
  | some pid =>
    match lookupA pid cls1 with
    | none => (cls1, [])
    | some peerClient =>
      if peerClient.wsOpen then
        if peerClient.crypto.hasSharedSecretWith clientId = false ∧
            clientId ∉ peerClient.sentPublicKeyTo then
          (updateA pid { peerClient with
              sentPublicKeyTo := peerClient.sentPublicKeyTo ++ [clientId] } cls1,
           [(pid, .peerReady clientId), (pid, .peerPublicKey clientId clientPublicKey)])
        else (cls1, [(pid, .peerReady clientId)])
      else (cls1, [])

/-- `handlePublicKeyExchange`: perform the key exchange for the sender
(note: the source passes only `message.peerPublicKey`, *not*
`message.peerId`, to `performKeyExchange`), mark the sender ready, emit
`key_exchange_complete`; then, when the named peer is registered and
open, emit `peer_ready` and — unless the peer already has a shared
secret with the sender or the sender's key was already sent to the peer
(`sentPublicKeyTo`) — record and emit the sender's public-key
announcement. A thrown exchange error is caught and reported to the
requesting session only. -/
def handlePublicKeyExchange (hash : List Nat → List Nat) (cls : Registry)
    (clientId : String) (msg : PublicKeyMsg) :
    Registry × List (String × ServerMsg α) :=
  match lookupA clientId cls with
  | none => (cls, [])
  | some client =>
    match client.crypto.performKeyExchange hash msg.peerPublicKey none with
    | .error _ => (cls, [(clientId, .errorMsg "Key exchange failed")])
    | .ok crypto1 =>
      let cls1 := updateA clientId { client with crypto := crypto1, ready := true } cls
      let notify := notifyPeerAfterExchange cls1 clientId client.publicKey msg.peerId
      (notify.1, (clientId, .keyExchangeComplete msg.peerId) :: notify.2)

/-- `broadcastToAll`: every session with an open connection except the
excluded sender, in registry order. -/
def broadcastToAll (cls : Registry) (msg : ServerMsg α) (excludeId : String) :
    List (String × ServerMsg α) :=
  cls.filterMap (fun p =>
    if p.1 ≠ excludeId ∧ p.2.wsOpen = true then some (p.1, msg) else none)

/-- `QuantumCrypto.generateKeyPair`, with the `crypto.randomBytes` draws
supplied as arguments (randomness is external to the repository): store
the fresh key pair and signature key and return the public key as the
hex string the caller receives in `keyInfo.publicKey`. -/
def CryptoState.generateKeyPair (s : CryptoState) (kp : KeyPair) (sig : SigKeyPair) :
    CryptoState × List Char :=
  ({ s with keyPair := some kp, signatureKey := some sig }, bytesToHex kp.publicKey)

/-- `handleKeyGeneration` (dispatched for the `generate_keys` message and
at connection time): generate a key pair for the session, store its hex
public key on the session, send `keys_generated` to the owner, and
broadcast a `peer_public_key` announcement to every *other* open client —
with no duplicate-suppression check of any kind. -/
def handleKeyGeneration (cls : Registry) (clientId : String)
    (kp : KeyPair) (sig : SigKeyPair) : Registry × List (String × ServerMsg α) :=
  match lookupA clientId cls with
  | none => (cls, [])
  | some client =>
    let gen := client.crypto.generateKeyPair kp sig
    let cls1 := updateA clientId { client with crypto := gen.1, publicKey := some gen.2 } cls
    (cls1, (clientId, .keysGenerated gen.2) ::
      broadcastToAll cls1 (.peerPublicKey clientId (some gen.2)) clientId)

/-- The client→server messages dispatched by `handleMessage` that this
development reasons about. A `generate_keys` event carries the random
key material its handler draws. -/
inductive ClientEvent (α : Type) where
  | publicKey (clientId : String) (msg : PublicKeyMsg)
  | groupMessage (clientId : String) (encryptedMessages : List (String × α))
  | encryptedMessage (clientId : String) (data : α)
  | generateKeys (clientId : String) (kp : KeyPair) (sig : SigKeyPair)
  deriving DecidableEq, Repr

/-- `e` is not a `generate_keys` dispatch. -/
def ClientEvent.notGenerateKeys : ClientEvent α → Bool
  | .generateKeys .. => false
  | _ => true

/-- One `handleMessage` dispatch. -/
def stepServer (hash : List Nat → List Nat) (cls : Registry) :
    ClientEvent α → Registry × List (String × ServerMsg α)
  | .publicKey c msg => handlePublicKeyExchange hash cls c msg
  | .groupMessage c msgs => (cls, handleGroupMessage cls c msgs)
  | .encryptedMessage c d => (cls, handleEncryptedMessage cls c d)
  | .generateKeys c kp sig => handleKeyGeneration cls c kp sig

/-- A sequence of dispatches, collecting all emitted messages. -/
def runServer (hash : List Nat → List Nat) (cls : Registry) :
    List (ClientEvent α) → Registry × List (String × ServerMsg α)
  | [] => (cls, [])
  | e :: es =>
    let step1 := stepServer hash cls e
    let rest := runServer hash step1.1 es
    (rest.1, step1.2 ++ rest.2)

/-! ### Claims C3/C4/C9: relay fan-out -/

theorem deliverGroupItem_eq_some {α : Type} {cls : Registry} {s : String}
    {p : String × α} {qm : String × ServerMsg α}
    (h : deliverGroupItem cls s p = some qm) :
    qm.1 = p.1 ∧ qm.2 = ServerMsg.messageReceived s p.2 ∧
      ∃ sess, lookupA p.1 cls = some sess ∧ sess.wsOpen = true := by
  unfold deliverGroupItem at h
  cases hl : lookupA p.1 cls with
  | none => rw [hl] at h; exact absurd h (by simp)
  | some sess =>
    rw [hl] at h
    simp only at h
    by_cases ho : sess.wsOpen = true
    · rw [if_pos ho] at h
      have h2 := Option.some.inj h
      exact ⟨(congrArg Prod.fst h2).symm, (congrArg Prod.snd h2).symm, sess, rfl, ho⟩
    · rw [if_neg ho] at h
      exact absurd h (by simp)

/-- C3: addressed group fan-out (`handleGroupMessage`). For a registered
sender: (1) isolation — a `message_received` carrying payload `d` is
delivered to `q` only if the batch contains the pair `(q, d)`, so an
envelope addressed to B is never delivered to C; (2) delivery — every
pair whose `forPeer` is registered with an open connection is delivered,
regardless of the other pairs in the batch (so absent or closed peers do
not block the rest); (3) no error is ever emitted (absent/closed peers
are silently skipped); (4) exactly one `message_sent` acknowledgment is
emitted, addressed to the sender, however many recipients existed. -/
theorem handleGroupMessage_spec (α : Type) (cls : Registry) (sender : String)
    (client : Session) (msgs : List (String × α))
    (hreg : lookupA sender cls = some client) :
    (∀ (q : String) (d : α),
        (q, ServerMsg.messageReceived sender d) ∈ handleGroupMessage cls sender msgs →
        (q, d) ∈ msgs) ∧
    (∀ (p : String) (d : α) (sess : Session), (p, d) ∈ msgs →
        lookupA p cls = some sess → sess.wsOpen = true →
        (p, ServerMsg.messageReceived sender d) ∈ handleGroupMessage cls sender msgs) ∧
    (∀ (q : String) (m : ServerMsg α), (q, m) ∈ handleGroupMessage cls sender msgs →
        ∀ e : String, m ≠ ServerMsg.errorMsg e) ∧
    (handleGroupMessage cls sender msgs).filter
        (fun qm => match qm.2 with | ServerMsg.messageSent => true | _ => false) =
      [(sender, ServerMsg.messageSent)] := by
  unfold handleGroupMessage
  rw [hreg]
  simp only
  refine ⟨?_, ?_, ?_, ?_⟩
  · intro q d hmem
    rw [List.mem_append] at hmem
    rcases hmem with hmem | hmem
    · rw [List.mem_filterMap] at hmem
      obtain ⟨p, hp, hdel⟩ := hmem
      obtain ⟨hq, hm, -⟩ := deliverGroupItem_eq_some hdel
      simp only at hq hm
      injection hm with _ hd
      rw [hq, hd, Prod.mk.eta]
      exact hp
    · simp at hmem
  · intro p d sess hp hl ho
    apply List.mem_append_left
    rw [List.mem_filterMap]
    exact ⟨(p, d), hp, by simp [deliverGroupItem, hl, ho]⟩
  · intro q m hmem e
    rw [List.mem_append] at hmem
    rcases hmem with hmem | hmem
    · rw [List.mem_filterMap] at hmem
      obtain ⟨p, -, hdel⟩ := hmem
      obtain ⟨-, hm, -⟩ := deliverGroupItem_eq_some hdel
      simp only at hm
      rw [hm]
      simp
    · simp only [List.mem_singleton, Prod.mk.injEq] at hmem
      rw [hmem.2]
      simp
  · rw [List.filter_append]
    have h1 : (msgs.filterMap (deliverGroupItem cls sender)).filter
        (fun qm => match qm.2 with | ServerMsg.messageSent => true | _ => false) = [] := by
      rw [List.filter_eq_nil_iff]
      intro qm hqm
      rw [List.mem_filterMap] at hqm
      obtain ⟨p, -, hdel⟩ := hqm
      obtain ⟨-, hm, -⟩ := deliverGroupItem_eq_some hdel
      rw [hm]
      simp
    rw [h1]
    rfl

/-- C3 witness: a concrete batch from sender `A` addressed to `B`
(registered, open) and `C` (absent): the spec instantiated at it. -/
theorem handleGroupMessage_spec_witness :
    (∀ (q : String) (d : Nat),
        (q, ServerMsg.messageReceived "A" d) ∈
          handleGroupMessage [("A", ⟨true, ⟨none, none, [], none⟩, none, true, []⟩),
            ("B", ⟨true, ⟨none, none, [], none⟩, none, true, []⟩)] "A" [("B", 1), ("C", 2)] →
        (q, d) ∈ [("B", 1), ("C", 2)]) ∧
    (∀ (p : String) (d : Nat) (sess : Session), (p, d) ∈ [("B", 1), ("C", 2)] →
        lookupA p [("A", ⟨true, ⟨none, none, [], none⟩, none, true, []⟩),
            ("B", ⟨true, ⟨none, none, [], none⟩, none, true, []⟩)] = some sess →
        sess.wsOpen = true →
        (p, ServerMsg.messageReceived "A" d) ∈
          handleGroupMessage [("A", ⟨true, ⟨none, none, [], none⟩, none, true, []⟩),
            ("B", ⟨true, ⟨none, none, [], none⟩, none, true, []⟩)] "A" [("B", 1), ("C", 2)]) ∧
    (∀ (q : String) (m : ServerMsg Nat),
        (q, m) ∈ handleGroupMessage [("A", ⟨true, ⟨none, none, [], none⟩, none, true, []⟩),
            ("B", ⟨true, ⟨none, none, [], none⟩, none, true, []⟩)] "A" [("B", 1), ("C", 2)] →
        ∀ e : String, m ≠ ServerMsg.errorMsg e) ∧
    (handleGroupMessage [("A", ⟨true, ⟨none, none, [], none⟩, none, true, []⟩),
        ("B", ⟨true, ⟨none, none, [], none⟩, none, true, []⟩)] "A" [("B", 1), ("C", 2)]).filter
        (fun qm => match qm.2 with | ServerMsg.messageSent => true | _ => false) =
      [("A", ServerMsg.messageSent)] :=
  handleGroupMessage_spec Nat
    [("A", ⟨true, ⟨none, none, [], none⟩, none, true, []⟩),
     ("B", ⟨true, ⟨none, none, [], none⟩, none, true, []⟩)]
    "A" ⟨true, ⟨none, none, [], none⟩, none, true, []⟩ [("B", 1), ("C", 2)] (by decide)

/-- C4: legacy broadcast (`handleEncryptedMessage` / `broadcastToReady`).
A registered sender that is not ready is rejected with a state error sent
to that sender only — the output is exactly the one error message, so
the ciphertext reaches nobody. A ready sender's ciphertext is delivered
to every ready session with an open connection except the sender, and a
`message_received` goes to `q` only if `q` is a ready open session other
than the sender (so no session that is not ready receives it); the
sender gets a `message_sent` acknowledgment. -/
theorem handleEncryptedMessage_spec (α : Type) (cls : Registry) (sender : String)
    (client : Session) (data : α) (hreg : lookupA sender cls = some client) :
    (client.ready = false →
      handleEncryptedMessage cls sender data =
        [(sender, ServerMsg.errorMsg "Client not ready for secure communication")]) ∧
    (client.ready = true →
      (∀ (q : String) (sess : Session), (q, sess) ∈ cls → q ≠ sender →
          sess.ready = true → sess.wsOpen = true →
          (q, ServerMsg.messageReceived sender data) ∈ handleEncryptedMessage cls sender data) ∧
      (∀ q : String,
          (q, ServerMsg.messageReceived sender data) ∈ handleEncryptedMessage cls sender data →
          q ≠ sender ∧ ∃ sess, (q, sess) ∈ cls ∧ sess.ready = true ∧ sess.wsOpen = true) ∧
      (sender, ServerMsg.messageSent) ∈ handleEncryptedMessage cls sender data) := by
  unfold handleEncryptedMessage
  rw [hreg]
  simp only
  constructor
  · intro hready
    rw [if_pos hready]
  · intro hready
    rw [hready]
    rw [if_neg (by simp)]
    refine ⟨?_, ?_, ?_⟩
    · intro q sess hmem hne hr ho
      apply List.mem_append_left
      unfold broadcastToReady
      rw [List.mem_filterMap]
      exact ⟨(q, sess), hmem, by simp [hne, hr, ho]⟩
    · intro q hmem
      rw [List.mem_append] at hmem
      rcases hmem with hmem | hmem
      · unfold broadcastToReady at hmem
        rw [List.mem_filterMap] at hmem
        obtain ⟨p, hp, hif⟩ := hmem
        by_cases hc : p.1 ≠ sender ∧ p.2.ready = true ∧ p.2.wsOpen = true
        · rw [if_pos hc] at hif
          have h2 := Option.some.inj hif
          have hq : p.1 = q := congrArg Prod.fst h2
          refine ⟨hq ▸ hc.1, p.2, ?_, hc.2.1, hc.2.2⟩
          rw [← hq, Prod.mk.eta]
          exact hp
        · rw [if_neg hc] at hif
          exact absurd hif (by simp)
      · simp at hmem
    · apply List.mem_append_right
      simp

/-- C4 witness: non-ready sender `A` is rejected; ready sender `B`
reaches ready open `C` but not non-ready `A`. Instantiated at sender `A`
(not ready) in a registry also holding ready `B` and `C`. -/
theorem handleEncryptedMessage_spec_witness :
    (Session.ready ⟨true, ⟨none, none, [], none⟩, none, false, []⟩ = false →
      handleEncryptedMessage [("A", ⟨true, ⟨none, none, [], none⟩, none, false, []⟩),
          ("B", ⟨true, ⟨none, none, [], none⟩, none, true, []⟩)] "A" (0 : Nat) =
        [("A", ServerMsg.errorMsg "Client not ready for secure communication")]) ∧
    (Session.ready ⟨true, ⟨none, none, [], none⟩, none, false, []⟩ = true →
      (∀ (q : String) (sess : Session),
          (q, sess) ∈ [("A", ⟨true, ⟨none, none, [], none⟩, none, false, []⟩),
            ("B", ⟨true, ⟨none, none, [], none⟩, none, true, []⟩)] → q ≠ "A" →
          sess.ready = true → sess.wsOpen = true →
          (q, ServerMsg.messageReceived "A" (0 : Nat)) ∈
            handleEncryptedMessage [("A", ⟨true, ⟨none, none, [], none⟩, none, false, []⟩),
              ("B", ⟨true, ⟨none, none, [], none⟩, none, true, []⟩)] "A" (0 : Nat)) ∧
      (∀ q : String,
          (q, ServerMsg.messageReceived "A" (0 : Nat)) ∈
            handleEncryptedMessage [("A", ⟨true, ⟨none, none, [], none⟩, none, false, []⟩),
              ("B", ⟨true, ⟨none, none, [], none⟩, none, true, []⟩)] "A" (0 : Nat) →
          q ≠ "A" ∧ ∃ sess : Session,
            (q, sess) ∈ [("A", ⟨true, ⟨none, none, [], none⟩, none, false, []⟩),
              ("B", ⟨true, ⟨none, none, [], none⟩, none, true, []⟩)] ∧
            sess.ready = true ∧ sess.wsOpen = true) ∧
      ("A", ServerMsg.messageSent) ∈
        handleEncryptedMessage [("A", ⟨true, ⟨none, none, [], none⟩, none, false, []⟩),
          ("B", ⟨true, ⟨none, none, [], none⟩, none, true, []⟩)] "A" (0 : Nat)) :=
  handleEncryptedMessage_spec Nat
    [("A", ⟨true, ⟨none, none, [], none⟩, none, false, []⟩),
     ("B", ⟨true, ⟨none, none, [], none⟩, none, true, []⟩)]
    "A" ⟨true, ⟨none, none, [], none⟩, none, false, []⟩ 0 (by decide)

/-! ### Claim C7: missing own key pair is a contained state error -/

/-- C7: when a pairwise exchange (`public_key` message) is requested for
a registered session whose `QuantumCrypto` has no own key pair,
`performKeyExchange` throws, the catch block reports "Key exchange
failed" to the requesting session only, and the registry is returned
unchanged — no message is sent to any other session and no session's
state (the requester's included) changes. -/
theorem handlePublicKeyExchange_noKeyPair (α : Type) (hash : List Nat → List Nat)
    (cls : Registry) (clientId : String) (client : Session) (msg : PublicKeyMsg)
    (hreg : lookupA clientId cls = some client)
    (hkp : client.crypto.keyPair = none) :
    handlePublicKeyExchange (α := α) hash cls clientId msg =
      (cls, [(clientId, ServerMsg.errorMsg "Key exchange failed")]) := by
  unfold handlePublicKeyExchange
  rw [hreg]
  simp only [CryptoState.performKeyExchange, hkp]

/-- C7 witness: a session with keys never generated, in a registry with
a bystander `B`; the bystander and the registry are untouched. -/
theorem handlePublicKeyExchange_noKeyPair_witness :
    handlePublicKeyExchange (α := Nat) (fun l => l)
      [("A", ⟨true, ⟨none, none, [], none⟩, none, false, []⟩),
       ("B", ⟨true, ⟨none, none, [], none⟩, none, true, []⟩)]
      "A" ⟨[Char.ofNat 48, Char.ofNat 50], some "B"⟩ =
      ([("A", ⟨true, ⟨none, none, [], none⟩, none, false, []⟩),
        ("B", ⟨true, ⟨none, none, [], none⟩, none, true, []⟩)],
       [("A", ServerMsg.errorMsg "Key exchange failed")]) :=
  handlePublicKeyExchange_noKeyPair Nat (fun l => l)
    [("A", ⟨true, ⟨none, none, [], none⟩, none, false, []⟩),
     ("B", ⟨true, ⟨none, none, [], none⟩, none, true, []⟩)]
    "A" ⟨true, ⟨none, none, [], none⟩, none, false, []⟩
    ⟨[Char.ofNat 48, Char.ofNat 50], some "B"⟩ (by decide) rfl

/-! ### Claim C9: the group path does not check sender readiness -/

/-- C9 (implicit): `handleGroupMessage` never reads `client.ready` — a
registered sender with `ready = false` still has its addressed envelopes
forwarded to their registered open recipients and still receives the
`message_sent` acknowledgment, whereas the legacy
`handleEncryptedMessage` path rejects the same sender with the
"Client not ready for secure communication" error. -/
theorem groupPath_ignores_readiness (α : Type) (cls : Registry) (sender : String)
    (client : Session) (msgs : List (String × α)) (data : α)
    (hreg : lookupA sender cls = some client) (hnotready : client.ready = false) :
    ((sender, ServerMsg.messageSent) ∈ handleGroupMessage cls sender msgs) ∧
    (∀ (p : String) (d : α) (sess : Session), (p, d) ∈ msgs →
        lookupA p cls = some sess → sess.wsOpen = true →
        (p, ServerMsg.messageReceived sender d) ∈ handleGroupMessage cls sender msgs) ∧
    handleEncryptedMessage cls sender data =
      [(sender, ServerMsg.errorMsg "Client not ready for secure communication")] := by
  refine ⟨?_, ?_, ?_⟩
  · unfold handleGroupMessage
    rw [hreg]
    simp only
    apply List.mem_append_right
    simp
  · intro p d sess hp hl ho
    unfold handleGroupMessage
    rw [hreg]
    simp only
    apply List.mem_append_left
    rw [List.mem_filterMap]
    exact ⟨(p, d), hp, by simp [deliverGroupItem, hl, ho]⟩
  · unfold handleEncryptedMessage
    rw [hreg]
    simp only
    rw [if_pos hnotready]

/-- C9 witness: non-ready sender `A`, batch addressed to open registered
`B`: forwarded and acknowledged on the group path, rejected on the
legacy path. -/
theorem groupPath_ignores_readiness_witness :
    (("A", ServerMsg.messageSent) ∈
        handleGroupMessage [("A", ⟨true, ⟨none, none, [], none⟩, none, false, []⟩),
          ("B", ⟨true, ⟨none, none, [], none⟩, none, true, []⟩)] "A" [("B", (5 : Nat))]) ∧
    (∀ (p : String) (d : Nat) (sess : Session), (p, d) ∈ [("B", (5 : Nat))] →
        lookupA p [("A", ⟨true, ⟨none, none, [], none⟩, none, false, []⟩),
          ("B", ⟨true, ⟨none, none, [], none⟩, none, true, []⟩)] = some sess →
        sess.wsOpen = true →
        (p, ServerMsg.messageReceived "A" d) ∈
          handleGroupMessage [("A", ⟨true, ⟨none, none, [], none⟩, none, false, []⟩),
            ("B", ⟨true, ⟨none, none, [], none⟩, none, true, []⟩)] "A" [("B", (5 : Nat))]) ∧
    handleEncryptedMessage [("A", ⟨true, ⟨none, none, [], none⟩, none, false, []⟩),
        ("B", ⟨true, ⟨none, none, [], none⟩, none, true, []⟩)] "A" (5 : Nat) =
      [("A", ServerMsg.errorMsg "Client not ready for secure communication")] :=
  groupPath_ignores_readiness Nat
    [("A", ⟨true, ⟨none, none, [], none⟩, none, false, []⟩),
     ("B", ⟨true, ⟨none, none, [], none⟩, none, true, []⟩)]
    "A" ⟨true, ⟨none, none, [], none⟩, none, false, []⟩ [("B", 5)] 5 (by decide) rfl

/-! ### Registry update lemmas -/

theorem lookupA_cons (k : String) (p : String × β) (rest : List (String × β)) :
    lookupA k (p :: rest) = if p.1 = k then some p.2 else lookupA k rest := rfl

theorem lookupA_updateA_self (k : String) (v : Session) :
    ∀ cls : Registry, lookupA k (updateA k v cls) = (lookupA k cls).map (fun _ => v) := by
  intro cls
  induction cls with
  | nil => rfl
  | cons p rest ih =>
    by_cases h : p.1 = k
    · simp only [updateA, List.map_cons, if_pos h] at ih ⊢
      rw [lookupA_cons, lookupA_cons, if_pos h, if_pos rfl]
      rfl
    · simp only [updateA, List.map_cons, if_neg h] at ih ⊢
      rw [lookupA_cons, lookupA_cons, if_neg h, if_neg h, ih]

theorem lookupA_updateA_ne (k : String) (v : Session) (q : String) (h : q ≠ k) :
    ∀ cls : Registry, lookupA q (updateA k v cls) = lookupA q cls := by
  intro cls
  induction cls with
  | nil => rfl
  | cons p rest ih =>
    by_cases hp : p.1 = k
    · simp only [updateA, List.map_cons, if_pos hp] at ih ⊢
      rw [lookupA_cons, lookupA_cons, if_neg (fun hkq => h hkq.symm),
        if_neg (by rw [hp]; exact fun hkq => h hkq.symm), ih]
    · simp only [updateA, List.map_cons, if_neg hp] at ih ⊢
      rw [lookupA_cons, lookupA_cons, ih]

/-- Field content of a successful `performKeyExchange` call made without
a `peerId` (this is how `server.js` always calls it). -/
theorem performKeyExchange_none_ok_fields {hash : List Nat → List Nat}
    {s : CryptoState} {pkhex : List Char} {s' : CryptoState}
    (h : CryptoState.performKeyExchange hash s pkhex none = .ok s') :
    s'.sharedSecrets = s.sharedSecrets ∧ s'.signatureKey = s.signatureKey ∧
      s'.keyPair = s.keyPair ∧
      ∃ kp, s.keyPair = some kp ∧
        s'.sharedSecret = some (deriveSharedSecret hash kp.publicKey (hexPairsToBytes pkhex)) := by
  unfold CryptoState.performKeyExchange at h
  cases hkp : s.keyPair with
  | none => rw [hkp] at h; cases h
  | some kp =>
    rw [hkp] at h
    simp only at h
    have h2 := Except.ok.inj h
    refine ⟨?_, ?_, ?_, kp, rfl, ?_⟩ <;> rw [← h2]
    exact hkp

/-! ### Claim C5: the server never populates the per-peer secret map -/

/-- `notifyPeerAfterExchange` never touches a registry entry other than
the one named by `peerId`. -/
theorem notifyPeer_fst_lookup_ne {α : Type} (cls1 : Registry) (c : String)
    (cpub : Option (List Char)) (pid : Option String) (q : String) (h : pid ≠ some q) :
    lookupA q (notifyPeerAfterExchange (α := α) cls1 c cpub pid).1 = lookupA q cls1 := by
  cases pid with
  | none => rfl
  | some p =>
    have hpq : q ≠ p := fun hq => h (by rw [hq])
    unfold notifyPeerAfterExchange
    simp only
    cases hl : lookupA p cls1 with
    | none => rfl
    | some peer =>
      simp only
      by_cases ho : peer.wsOpen = true
      · rw [if_pos ho]
        by_cases hc : peer.crypto.hasSharedSecretWith c = false ∧ c ∉ peer.sentPublicKeyTo
        · rw [if_pos hc]
          exact lookupA_updateA_ne p _ q hpq cls1
        · rw [if_neg hc]
      · rw [if_neg ho]

/-- C5 (divergence witnessing theorem): when a registered session with a
generated key pair processes a `public_key` message naming a distinct
peer, the exchange succeeds and the session is marked ready with the
backward-compatibility `sharedSecret` field overwritten by the derived
secret — but its per-peer `sharedSecrets` map is left *unchanged*
(nothing is cached under the peer's id), because
`handlePublicKeyExchange` calls `performKeyExchange(message.peerPublicKey)`
without forwarding `message.peerId`. -/
theorem handlePublicKeyExchange_no_perPeer_cache (α : Type)
    (hash : List Nat → List Nat) (cls : Registry) (clientId : String)
    (client : Session) (msg : PublicKeyMsg) (kp : KeyPair)
    (hreg : lookupA clientId cls = some client)
    (hkp : client.crypto.keyPair = some kp)
    (hne : msg.peerId ≠ some clientId) :
    ∃ client' : Session,
      lookupA clientId (handlePublicKeyExchange (α := α) hash cls clientId msg).1 =
        some client' ∧
      client'.ready = true ∧
      client'.crypto.sharedSecrets = client.crypto.sharedSecrets ∧
      client'.crypto.sharedSecret =
        some (deriveSharedSecret hash kp.publicKey (hexPairsToBytes msg.peerPublicKey)) := by
  have hok : client.crypto.performKeyExchange hash msg.peerPublicKey none =
      .ok { client.crypto with
            sharedSecret := some (deriveSharedSecret hash kp.publicKey
              (hexPairsToBytes msg.peerPublicKey)) } := by
    unfold CryptoState.performKeyExchange
    rw [hkp]
  refine ⟨{ client with
      crypto := { client.crypto with
                  sharedSecret := some (deriveSharedSecret hash kp.publicKey
                    (hexPairsToBytes msg.peerPublicKey)) },
      ready := true }, ?_, rfl, rfl, rfl⟩
  unfold handlePublicKeyExchange
  rw [hreg]
  simp only
  rw [hok]
  simp only
  rw [notifyPeer_fst_lookup_ne _ _ _ _ _ hne]
  rw [lookupA_updateA_self, hreg]
  rfl

/-- C5 witness / failing-input evaluation: session `A` (keys generated,
empty secret map) processes `{peerPublicKey: "02", peerId: "B"}`; after
the exchange `A` is ready and `sharedSecret` holds the derived value,
yet `A.sharedSecrets` is still empty — the secret was not cached under
`"B"`. -/
theorem handlePublicKeyExchange_no_perPeer_cache_witness :
    ∃ client' : Session,
      lookupA "A" (handlePublicKeyExchange (α := Nat) (fun l => l)
        [("A", ⟨true, ⟨some ⟨[1], [1]⟩, none, [], none⟩, none, false, []⟩),
         ("B", ⟨true, ⟨none, none, [], none⟩, none, false, []⟩)]
        "A" ⟨[Char.ofNat 48, Char.ofNat 50], some "B"⟩).1 = some client' ∧
      client'.ready = true ∧
      client'.crypto.sharedSecrets =
        CryptoState.sharedSecrets ⟨some ⟨[1], [1]⟩, none, [], none⟩ ∧
      client'.crypto.sharedSecret =
        some (deriveSharedSecret (fun l => l) [1]
          (hexPairsToBytes [Char.ofNat 48, Char.ofNat 50])) :=
  handlePublicKeyExchange_no_perPeer_cache Nat (fun l => l)
    [("A", ⟨true, ⟨some ⟨[1], [1]⟩, none, [], none⟩, none, false, []⟩),
     ("B", ⟨true, ⟨none, none, [], none⟩, none, false, []⟩)]
    "A" ⟨true, ⟨some ⟨[1], [1]⟩, none, [], none⟩, none, false, []⟩
    ⟨[Char.ofNat 48, Char.ofNat 50], some "B"⟩ ⟨[1], [1]⟩ (by decide) rfl (by decide)

/-! ### Claim C6: duplicate-announcement suppression -/

/-- "A's key has been announced to B": the registry holds `b` and its
`sentPublicKeyTo` already records `a`. -/
def announcedState (cls : Registry) (a b : String) : Prop :=
  ∃ s : Session, lookupA b cls = some s ∧ a ∈ s.sentPublicKeyTo

theorem hasSharedSecretWith_congr {s1 s2 : CryptoState}
    (h : s1.sharedSecrets = s2.sharedSecrets) (p : String) :
    s1.hasSharedSecretWith p = s2.hasSharedSecretWith p := by
  unfold CryptoState.hasSharedSecretWith
  rw [h]

theorem handleGroupMessage_no_announce {α : Type} (cls : Registry) (c : String)
    (msgs : List (String × α)) (a b : String) (pk : Option (List Char)) :
    (b, ServerMsg.peerPublicKey a pk) ∉ handleGroupMessage cls c msgs := by
  intro hmem
  unfold handleGroupMessage at hmem
  cases hl : lookupA c cls with
  | none => rw [hl] at hmem; simp at hmem
  | some client =>
    rw [hl] at hmem
    simp only at hmem
    rw [List.mem_append] at hmem
    rcases hmem with hmem | hmem
    · rw [List.mem_filterMap] at hmem
      obtain ⟨p, -, hdel⟩ := hmem
      obtain ⟨-, hm, -⟩ := deliverGroupItem_eq_some hdel
      simp at hm
    · simp at hmem

theorem handleEncryptedMessage_no_announce {α : Type} (cls : Registry) (c : String)
    (d : α) (a b : String) (pk : Option (List Char)) :
    (b, ServerMsg.peerPublicKey a pk) ∉ handleEncryptedMessage cls c d := by
  intro hmem
  unfold handleEncryptedMessage at hmem
  cases hl : lookupA c cls with
  | none => rw [hl] at hmem; simp at hmem
  | some client =>
    rw [hl] at hmem
    simp only at hmem
    by_cases hr : client.ready = false
    · rw [if_pos hr] at hmem
      simp at hmem
    · rw [if_neg hr] at hmem
      rw [List.mem_append] at hmem
      rcases hmem with hmem | hmem
      · unfold broadcastToReady at hmem
        rw [List.mem_filterMap] at hmem
        obtain ⟨p, -, hif⟩ := hmem
        by_cases hcond : p.1 ≠ c ∧ p.2.ready = true ∧ p.2.wsOpen = true
        · rw [if_pos hcond] at hif
          have h2 := congrArg Prod.snd (Option.some.inj hif)
          simp at h2
        · rw [if_neg hcond] at hif
          exact absurd hif (by simp)
      · simp at hmem

/-- An announcement emitted by `notifyPeerAfterExchange` passed the
suppression check, and the peer's `sentPublicKeyTo` records it in the
resulting registry. -/
theorem notifyPeer_announce {α : Type} {cls1 : Registry} {c : String}
    {cpub : Option (List Char)} {pid : Option String} {a b : String}
    {pk : Option (List Char)}
    (hmem : (b, ServerMsg.peerPublicKey a pk) ∈
      (notifyPeerAfterExchange (α := α) cls1 c cpub pid).2) :
    a = c ∧ pid = some b ∧
      ∃ peer : Session, lookupA b cls1 = some peer ∧
        peer.crypto.hasSharedSecretWith c = false ∧ c ∉ peer.sentPublicKeyTo ∧
        (notifyPeerAfterExchange (α := α) cls1 c cpub pid).1 =
          updateA b { peer with sentPublicKeyTo := peer.sentPublicKeyTo ++ [c] } cls1 := by
  cases pid with
  | none => simp [notifyPeerAfterExchange] at hmem
  | some p =>
    unfold notifyPeerAfterExchange at hmem ⊢
    simp only at hmem ⊢
    cases hl : lookupA p cls1 with
    | none => rw [hl] at hmem; simp at hmem
    | some peer =>
      rw [hl] at hmem
      simp only at hmem
      by_cases ho : peer.wsOpen = true
      · rw [if_pos ho] at hmem
        by_cases hc : peer.crypto.hasSharedSecretWith c = false ∧ c ∉ peer.sentPublicKeyTo
        · rw [if_pos hc] at hmem
          simp only [List.mem_cons, List.not_mem_nil, or_false, Prod.mk.injEq] at hmem
          rcases hmem with ⟨-, hm⟩ | ⟨hb, hm⟩
          · exact absurd hm (by simp)
          · have ha : a = c := by
              injection hm with h1 h2
            have hpk : pk = cpub := by
              injection hm with h1 h2
            subst hb
            subst ha
            refine ⟨rfl, rfl, peer, hl, hc.1, hc.2, ?_⟩
            simp only
            rw [if_pos ho, if_pos hc]
        · rw [if_neg hc] at hmem
          simp at hmem
      · rw [if_neg ho] at hmem
        simp at hmem

theorem announced_updateA {cls : Registry} {a b k : String} {v old : Session}
    (hl : lookupA k cls = some old)
    (hsub : ∀ x, x ∈ old.sentPublicKeyTo → x ∈ v.sentPublicKeyTo)
    (h : announcedState cls a b) : announcedState (updateA k v cls) a b := by
  obtain ⟨s, hs, ha⟩ := h
  by_cases hbk : b = k
  · subst hbk
    rw [hl] at hs
    obtain rfl := Option.some.inj hs
    refine ⟨v, ?_, hsub a ha⟩
    rw [lookupA_updateA_self, hl]
    rfl
  · refine ⟨s, ?_, ha⟩
    rw [lookupA_updateA_ne k v b hbk cls]
    exact hs

theorem notifyPeer_preserves_announced {α : Type} (cls1 : Registry) (c : String)
    (cpub : Option (List Char)) (pid : Option String) {a b : String}
    (h : announcedState cls1 a b) :
    announcedState (notifyPeerAfterExchange (α := α) cls1 c cpub pid).1 a b := by
  cases pid with
  | none => exact h
  | some p =>
    unfold notifyPeerAfterExchange
    simp only
    cases hl : lookupA p cls1 with
    | none => exact h
    | some peer =>
      simp only
      by_cases ho : peer.wsOpen = true
      · rw [if_pos ho]
        by_cases hc : peer.crypto.hasSharedSecretWith c = false ∧ c ∉ peer.sentPublicKeyTo
        · rw [if_pos hc]
          exact announced_updateA hl (fun x hx => List.mem_append_left _ hx) h
        · rw [if_neg hc]
          exact h
      · rw [if_neg ho]
        exact h

theorem handlePKE_announce_requires {α : Type} (hash : List Nat → List Nat)
    (cls : Registry) (c : String) (msg : PublicKeyMsg) {a b : String}
    {pk : Option (List Char)}
    (hmem : (b, ServerMsg.peerPublicKey a pk) ∈
      (handlePublicKeyExchange (α := α) hash cls c msg).2) :
    (∃ s : Session, lookupA b cls = some s ∧ s.crypto.hasSharedSecretWith a = false ∧
      a ∉ s.sentPublicKeyTo) ∧
    announcedState (handlePublicKeyExchange (α := α) hash cls c msg).1 a b := by
  unfold handlePublicKeyExchange at hmem ⊢
  cases hreg : lookupA c cls with
  | none => rw [hreg] at hmem; simp at hmem
  | some client =>
    rw [hreg] at hmem
    simp only at hmem ⊢
    cases hok : client.crypto.performKeyExchange hash msg.peerPublicKey none with
    | error e => rw [hok] at hmem; simp at hmem
    | ok crypto1 =>
      rw [hok] at hmem
      simp only at hmem ⊢
      rw [List.mem_cons] at hmem
      rcases hmem with hmem | hmem
      · exact absurd (congrArg Prod.snd hmem) (by simp)
      · obtain ⟨ha, hpid, peer, hpl, hss, hsent, hfst⟩ := notifyPeer_announce hmem
        obtain ⟨hss1, -, -, -⟩ := performKeyExchange_none_ok_fields hok
        subst ha
        constructor
        · by_cases hbc : b = a
          · subst hbc
            rw [lookupA_updateA_self, hreg] at hpl
            obtain rfl := Option.some.inj hpl
            refine ⟨client, hreg, ?_, hsent⟩
            rw [← hasSharedSecretWith_congr hss1]
            exact hss
          · rw [lookupA_updateA_ne a _ b hbc] at hpl
            exact ⟨peer, hpl, hss, hsent⟩
        · rw [hfst]
          refine ⟨{ peer with sentPublicKeyTo := peer.sentPublicKeyTo ++ [a] }, ?_, by simp⟩
          rw [lookupA_updateA_self, hpl]
          rfl

theorem handlePKE_preserves_announced {α : Type} (hash : List Nat → List Nat)
    (cls : Registry) (c : String) (msg : PublicKeyMsg) {a b : String}
    (h : announcedState cls a b) :
    announcedState (handlePublicKeyExchange (α := α) hash cls c msg).1 a b := by
  unfold handlePublicKeyExchange
  cases hreg : lookupA c cls with
  | none => exact h
  | some client =>
    simp only
    cases hok : client.crypto.performKeyExchange hash msg.peerPublicKey none with
    | error e => exact h
    | ok crypto1 =>
      simp only
      apply notifyPeer_preserves_announced
      exact announced_updateA hreg (fun x hx => hx) h

theorem stepServer_preserves_announced {α : Type} (hash : List Nat → List Nat)
    (cls : Registry) (e : ClientEvent α) {a b : String}
    (h : announcedState cls a b) : announcedState (stepServer hash cls e).1 a b := by
  cases e with
  | publicKey c msg => exact handlePKE_preserves_announced hash cls c msg h
  | groupMessage c msgs => exact h
  | encryptedMessage c d => exact h
  | generateKeys c kp sig =>
    show announcedState (handleKeyGeneration cls c kp sig).1 a b
    unfold handleKeyGeneration
    cases hreg : lookupA c cls with
    | none => exact h
    | some client =>
      simp only
      exact announced_updateA hreg (fun x hx => hx) h

theorem runServer_no_announce_of_announced {α : Type} (hash : List Nat → List Nat)
    {a b : String} :
    ∀ (events : List (ClientEvent α)) (cls : Registry), announcedState cls a b →
      (∀ e ∈ events, e.notGenerateKeys = true) →
      ∀ pk : Option (List Char),
        (b, ServerMsg.peerPublicKey a pk) ∉ (runServer hash cls events).2 := by
  intro events
  induction events with
  | nil =>
    intro cls h hng pk hmem
    simp [runServer] at hmem
  | cons e es ih =>
    intro cls h hng pk hmem
    unfold runServer at hmem
    simp only at hmem
    rw [List.mem_append] at hmem
    rcases hmem with hmem | hmem
    · have hchk : ∃ s : Session, lookupA b cls = some s ∧ a ∉ s.sentPublicKeyTo := by
        cases e with
        | publicKey c msg =>
          obtain ⟨⟨s, hs, -, hnotin⟩, -⟩ := handlePKE_announce_requires hash cls c msg hmem
          exact ⟨s, hs, hnotin⟩
        | groupMessage c msgs =>
          exact absurd hmem (handleGroupMessage_no_announce cls c msgs a b pk)
        | encryptedMessage c d =>
          exact absurd hmem (handleEncryptedMessage_no_announce cls c d a b pk)
        | generateKeys c kp sig =>
          have := hng _ (List.mem_cons_self _ _)
          simp [ClientEvent.notGenerateKeys] at this
      obtain ⟨s, hs, hnotin⟩ := hchk
      obtain ⟨s', hs', ha'⟩ := h
      rw [hs] at hs'
      obtain rfl := Option.some.inj hs'
      exact hnotin ha'
    · exact ih (stepServer hash cls e).1 (stepServer_preserves_announced hash cls e h)
        (fun e' he' => hng e' (List.mem_cons_of_mem _ he')) pk hmem

/-- C6 (counterexample): the claim's "no second announcement of A's key
is ever sent to B for the lifetime of the pair" is false. Concrete
input: `B` already shares a secret with `A` (per-peer map holds `"A"`)
and `A`'s key has already been announced to `B` (`sentPublicKeyTo =
["A"]`); `A` then dispatches `generate_keys`, whose handler
(`handleKeyGeneration`, server.js lines 181-188) broadcasts `A`'s fresh
public key to every open client with no suppression check — so `B`
receives a second `peer_public_key` announcement of `A`'s key. -/
theorem generateKeys_reannounces :
    ("B", ServerMsg.peerPublicKey "A" (some (bytesToHex [2]))) ∈
      (runServer (α := Nat) (fun l => l)
        [("A", ⟨true, ⟨some ⟨[1], [1]⟩, none, [], none⟩, none, true, []⟩),
         ("B", ⟨true, ⟨none, none, [("A", [9])], none⟩, none, true, ["A"]⟩)]
        [ClientEvent.generateKeys "A" ⟨[3], [2]⟩ ⟨[4], [5]⟩]).2 := by
  decide

/-- C6 (amended): duplicate-announcement suppression, scoped to the
pairwise-exchange path. First conjunct: whenever `handlePublicKeyExchange`
emits an announcement of `a`'s public key to `b`, the coordinator's
check held just before — `b` is registered, `b` does not already have a
shared secret with `a`, and `a` was not yet in `b`'s `sentPublicKeyTo` —
and afterwards `b`'s `sentPublicKeyTo` records `a`. Second conjunct:
once `a` has been announced to `b` (`announcedState`), no sequence of
further dispatched messages *other than `generate_keys`* ever emits
another announcement of `a`'s key to `b`. (`generate_keys` is the
exception the counterexample exhibits: `handleKeyGeneration` broadcasts
the sender's freshly regenerated key to every open client with no
suppression check.) -/
theorem exchangePathAnnouncementSuppression (α : Type) (hash : List Nat → List Nat)
    (a b : String) :
    (∀ (cls : Registry) (c : String) (msg : PublicKeyMsg) (pk : Option (List Char)),
        (b, ServerMsg.peerPublicKey a pk) ∈
          (handlePublicKeyExchange (α := α) hash cls c msg).2 →
        (∃ s : Session, lookupA b cls = some s ∧
            s.crypto.hasSharedSecretWith a = false ∧ a ∉ s.sentPublicKeyTo) ∧
          announcedState (handlePublicKeyExchange (α := α) hash cls c msg).1 a b) ∧
    (∀ (cls : Registry) (events : List (ClientEvent α)) (pk : Option (List Char)),
        announcedState cls a b →
        (∀ e ∈ events, e.notGenerateKeys = true) →
        (b, ServerMsg.peerPublicKey a pk) ∉ (runServer hash cls events).2) :=
  ⟨fun cls c msg _pk hmem => handlePKE_announce_requires hash cls c msg hmem,
   fun cls events pk h hng => runServer_no_announce_of_announced hash events cls h hng pk⟩

/-- C6 witness: `B` already has `A` in `sentPublicKeyTo` (and shares a
secret with `A` in its per-peer map); a further `public_key` dispatch
from `A` naming `B` — a non-`generate_keys` trace — emits no second
announcement of `A`'s key to `B`. -/
theorem exchangePathAnnouncementSuppression_witness :
    ("B", ServerMsg.peerPublicKey "A" (none : Option (List Char))) ∉
      (runServer (α := Nat) (fun l => l)
        [("A", ⟨true, ⟨some ⟨[1], [1]⟩, none, [], none⟩, none, true, []⟩),
         ("B", ⟨true, ⟨none, none, [("A", [9])], none⟩, none, true, ["A"]⟩)]
        [ClientEvent.publicKey "A" ⟨[Char.ofNat 48, Char.ofNat 50], some "B"⟩]).2 :=
  (exchangePathAnnouncementSuppression Nat (fun l => l) "A" "B").2
    [("A", ⟨true, ⟨some ⟨[1], [1]⟩, none, [], none⟩, none, true, []⟩),
     ("B", ⟨true, ⟨none, none, [("A", [9])], none⟩, none, true, ["A"]⟩)]
    [ClientEvent.publicKey "A" ⟨[Char.ofNat 48, Char.ofNat 50], some "B"⟩] none
    ⟨⟨true, ⟨none, none, [("A", [9])], none⟩, none, true, ["A"]⟩, by decide, by decide⟩
    (by decide)

/-! ### Claim C8: signatures (`signMessage` / `verifySignature`) -/

/-- The object returned by `QuantumCrypto.signMessage` (static metadata
and timestamp elided). -/
structure SignatureData where
  signature : List Char
  messageHash : List Char
  deriving DecidableEq, Repr

/-- `QuantumCrypto.signMessage(message)`: HMAC-SHA256 (`hmac key data`)
over the SHA-256 hash of the message, keyed with the *private* signature
key, emitted as a lowercase hex digest. `sha`/`hmac` are the external
Node primitives. -/
def CryptoState.signMessage (sha : List Nat → List Nat)
    (hmac : List Nat → List Nat → List Nat) (s : CryptoState)
    (message : List Nat) : Except String SignatureData :=
  match s.signatureKey with
  | none => .error "Failed to sign message"
  | some sk =>
    let messageHash := sha message
    .ok { signature := bytesToHex (hmac sk.privateKey messageHash)
          messageHash := bytesToHex messageHash }

/-- `QuantumCrypto.verifySignature(message, signatureData, publicKey)`:
recomputes the keyed hash using the alleged signer's *public* key
(parsed from its hex form) as the HMAC key, and compares hex digests
with `===`. -/
def verifySignature (sha : List Nat → List Nat)
    (hmac : List Nat → List Nat → List Nat) (message : List Nat)
    (sigData : SignatureData) (publicKey : List Char) : Bool :=
  sigData.signature == bytesToHex (hmac (hexPairsToBytes publicKey) (sha message))

/-- C8: signing keys with the private key while verifying keys with the
public key. For every message and signature key pair (byte-valued keys)
whose private-keyed and public-keyed HMAC digests differ,
`verifySignature(m, signMessage(m), publicKey)` returns `false`: an
honestly produced signature never verifies except by hash coincidence,
so these signatures provide no sender authentication. -/
theorem verifySignature_rejects_honest (sha : List Nat → List Nat)
    (hmac : List Nat → List Nat → List Nat) (s : CryptoState) (sk : SigKeyPair)
    (message : List Nat) (sig : SignatureData)
    (hsk : s.signatureKey = some sk)
    (hpub : ∀ x ∈ sk.publicKey, x < 256)
    (hbpriv : ∀ x ∈ hmac sk.privateKey (sha message), x < 256)
    (hbpub : ∀ x ∈ hmac sk.publicKey (sha message), x < 256)
    (hdiff : hmac sk.privateKey (sha message) ≠ hmac sk.publicKey (sha message))
    (hsig : CryptoState.signMessage sha hmac s message = .ok sig) :
    verifySignature sha hmac message sig (bytesToHex sk.publicKey) = false := by
  unfold CryptoState.signMessage at hsig
  rw [hsk] at hsig
  simp only at hsig
  obtain rfl := Except.ok.inj hsig
  unfold verifySignature
  rw [hexPairsToBytes_bytesToHex _ hpub]
  simp only [beq_eq_false_iff_ne, ne_eq]
  intro heq
  apply hdiff
  have h2 := congrArg hexPairsToBytes heq
  rw [hexPairsToBytes_bytesToHex _ hbpriv, hexPairsToBytes_bytesToHex _ hbpub] at h2
  exact h2

/-- C8 witness: key pair `([0], [1])`, message `[5]`, with concrete
stand-in primitives (`sha = id`, `hmac k d = k ++ d`): the honest
signature fails verification. -/
theorem verifySignature_rejects_honest_witness :
    verifySignature (fun l => l) (fun k d => k ++ d) [5]
      ⟨bytesToHex ([0] ++ [5]), bytesToHex [5]⟩ (bytesToHex [1]) = false :=
  verifySignature_rejects_honest (fun l => l) (fun k d => k ++ d)
    ⟨none, none, [], some ⟨[0], [1]⟩⟩ ⟨[0], [1]⟩ [5]
    ⟨bytesToHex ([0] ++ [5]), bytesToHex [5]⟩ rfl (by decide) (by decide) (by decide)
    (by decide) rfl

/-! ### Claim C10: the backward-compatibility secret is always overwritten -/

/-- C10 (implicit): every successful `performKeyExchange` — with or
without a `peerId` — overwrites the single backward-compatibility
`sharedSecret` field with the newly derived secret (first conjunct);
`encrypt` with a `peerId` that does not resolve in the per-peer map (or
with no `peerId`) falls back to exactly that field (second conjunct), as
does `decrypt`'s secret resolution when neither the explicit `peerId`
nor the envelope's `forPeer` resolves (third conjunct). Hence after
several exchanges, an unresolved encrypt/decrypt uses the secret of the
most recent exchange, whichever peer it was with. -/
theorem performKeyExchange_overwrites_and_fallback (hash : List Nat → List Nat) :
    (∀ (s : CryptoState) (kp : KeyPair) (pk : List Char) (peerId : Option String),
        s.keyPair = some kp →
        ∃ s', CryptoState.performKeyExchange hash s pk peerId = .ok s' ∧
          s'.sharedSecret =
            some (deriveSharedSecret hash kp.publicKey (hexPairsToBytes pk))) ∧
    (∀ (s : CryptoState) (m : List Nat) (peerId : Option String) (sec : List Nat),
        s.sharedSecret = some sec →
        peerId.bind (fun pid => lookupA pid s.sharedSecrets) = none →
        CryptoState.encrypt s m peerId =
          .ok ⟨bytesToHex (xorWithSecret sec 0 m), "XOR-Demo", peerId, "hex"⟩) ∧
    (∀ (s : CryptoState) (ed : EncryptedData) (peerId : Option String) (sec : List Nat),
        s.sharedSecret = some sec →
        peerId.bind (fun pid => lookupA pid s.sharedSecrets) = none →
        ed.forPeer.bind (fun pid => lookupA pid s.sharedSecrets) = none →
        resolveDecryptSecret s ed peerId = some sec) := by
  refine ⟨?_, ?_, ?_⟩
  · intro s kp pk peerId hkp
    unfold CryptoState.performKeyExchange
    rw [hkp]
    cases peerId with
    | none => exact ⟨_, rfl, rfl⟩
    | some pid => exact ⟨_, rfl, rfl⟩
  · intro s m peerId sec hs hnone
    unfold CryptoState.encrypt resolveEncryptSecret
    rw [hnone, hs]
  · intro s ed peerId sec hs hnone1 hnone2
    unfold resolveDecryptSecret
    rw [hnone1, hnone2, hs]

/-- C10 witness: a state holding a per-peer secret for `"Q"` only; an
exchange with a fresh peer `"P"` overwrites `sharedSecret`, and an
encrypt addressed to unknown `"R"` falls back to the stored
`sharedSecret`. -/
theorem performKeyExchange_overwrites_and_fallback_witness :
    (∃ s', CryptoState.performKeyExchange (fun l => l)
        ⟨some ⟨[0], [3]⟩, some [7], [("Q", [9])], none⟩
        [Char.ofNat 48, Char.ofNat 50] (some "P") = .ok s' ∧
      s'.sharedSecret = some (deriveSharedSecret (fun l => l) [3]
        (hexPairsToBytes [Char.ofNat 48, Char.ofNat 50]))) ∧
    CryptoState.encrypt ⟨some ⟨[0], [3]⟩, some [7], [("Q", [9])], none⟩
        [1, 2] (some "R") =
      .ok ⟨bytesToHex (xorWithSecret [7] 0 [1, 2]), "XOR-Demo", some "R", "hex"⟩ :=
  ⟨(performKeyExchange_overwrites_and_fallback (fun l => l)).1
      ⟨some ⟨[0], [3]⟩, some [7], [("Q", [9])], none⟩ ⟨[0], [3]⟩
      [Char.ofNat 48, Char.ofNat 50] (some "P") rfl,
   (performKeyExchange_overwrites_and_fallback (fun l => l)).2.1
      ⟨some ⟨[0], [3]⟩, some [7], [("Q", [9])], none⟩ [1, 2] (some "R") [7] rfl (by decide)⟩

end QuantumChat
